import Mathlib

/-!
Shallow embedding of `flag.py`: a library of "flagged enums" (named,
bit-disjoint flag sets with automatic value assignment, duplicate detection
and interned OR-combination).

Modelling conventions:
* Python arbitrary-precision `int` is `Int`; Python's bitwise `&`, `|`, `~`
  on `int` are two's-complement operations on unbounded integers, which is
  exactly `Int.land`, `Int.lor`, `Int.lnot` from Mathlib.
* A Python object is modelled by a record carrying an `id : Nat` field; `id`
  models object identity (`is`).  Every object creation issues a fresh id.
* `cls._all_flags` and `cls._declared_flags` are Python sets of flag objects
  whose `__hash__` is the value and whose `__eq__` is identity, so they hold
  (possibly value-duplicate) objects; they are modelled as lists in object
  creation order.  Python set iteration order is implementation-defined; the
  model fixes creation order as a deterministic refinement.
* Exceptions are modelled with `Except`.  `IndexError` (raised by
  `get_by_name` / `get_by_value`) is a subclass of Python's `LookupError`.
-/

/-- A Python attribute value as it can occur in a class body that the
metaclass `FlaggedEnumMeta` scans: an `int` literal, a `str`, the `auto`
marker (the `AutoGen` class object), or a callable / property / classmethod /
staticmethod (the kinds excluded by `_is_flag_def`). -/
inductive PyVal where
  | intVal (v : Int)
  | strVal (s : String)
  | autoMarker
  | callable
  deriving DecidableEq

/-- A flag object (an instance of a `FlaggedEnum` subclass): `id` models
Python object identity, `name` is `self._name`, `value` is `self._value`. -/
structure PyFlag where
  id : Nat
  name : String
  value : Int
  deriving DecidableEq

/-- The exceptions raised by `flag.py`.  `indexError` models Python's
`IndexError`, which is a subclass of `LookupError`. -/
inductive PyError where
  | illegalFlagValue (value : PyVal)
  | repeatedFlagValue (flagName : String)
  | indexError (msg : String)
  deriving DecidableEq

/-- The state of one flag-set type built by `FlaggedEnumMeta.__init__`:
`typeName` is `cls.__name__`, `declaredFlags` models `cls._declared_flags`,
`allFlags` models `cls._all_flags` (in object creation order). -/
structure FlagSet where
  typeName : String
  declaredFlags : List PyFlag
  allFlags : List PyFlag
  deriving DecidableEq

/-- A key passed to `FlaggedEnumMeta.__getitem__`: a `str`, an `int`, or
anything else (neither branch of the `isinstance` dispatch). -/
inductive PyKey where
  | strKey (s : String)
  | intKey (v : Int)
  | otherKey
  deriving DecidableEq

/-- `AutoGen.__next__`: from the current reserved mask, computes
`next_val = ~reserved - (~reserved & (~reserved - 1))` and then
`reserved |= next_val`.  Returns `(next_val, updated reserved mask)`. -/
def autoGenNext (reserved : Int) : Int × Int :=
  let nextVal := Int.lnot reserved -
    Int.land (Int.lnot reserved) (Int.lnot reserved - 1)
  (nextVal, Int.lor reserved nextVal)

/-- `AutoGen.__init__`: the reserved mask is the bitwise OR of the reserved
values, folded from `0` (`reduce(lambda acc, val: acc | val, reserved_values, 0)`). -/
def autoGenInit (reservedValues : List Int) : Int :=
  reservedValues.foldl (fun acc v => Int.lor acc v) 0

/-- Python's `name.startswith('_')`: whether the first character is an
underscore.  (Stated on the character list so that it evaluates inside the
kernel; `String.startsWith` does not.) -/
def pyUnderscoreFirst (name : String) : Bool :=
  match name.data with
  | [] => false
  | c :: _ => c == '_'

/-- `FlaggedEnumMeta._is_flag_def`: a class attribute is a flag definition if
it is not a callable/property/classmethod/staticmethod and its name does not
start with an underscore. -/
def isFlagDef (name : String) (v : PyVal) : Bool :=
  !(v == PyVal.callable) && !(pyUnderscoreFirst name)

/-- `FlaggedEnumMeta.__call__` specialised to an `int` value (this path never
raises): creates the flag object with a fresh id and registers it in
`_all_flags`.  Returns the updated `_all_flags` list and the new flag. -/
def metaCallInt (allFlags : List PyFlag) (name : String) (v : Int) :
    List PyFlag × PyFlag :=
  let flag : PyFlag := { id := allFlags.length, name := name, value := v }
  (allFlags ++ [flag], flag)

/-- `FlaggedEnumMeta.__call__`: raises `IllegalFlagValueError` unless the
value is an `int` (`isinstance(value, int)`); otherwise creates and registers
the flag. -/
def metaCall (allFlags : List PyFlag) (name : String) (value : PyVal) :
    Except PyError (List PyFlag × PyFlag) :=
  match value with
  | PyVal.intVal v => Except.ok (metaCallInt allFlags name v)
  | other => Except.error (PyError.illegalFlagValue other)

/-- The set comprehension in `FlaggedEnumMeta.__init__` that builds the
explicitly-valued declared flags: scans `attrs` in order, keeps the entries
that are flag definitions and not the `auto` marker, and constructs each flag
via `__call__` (which may raise `IllegalFlagValueError`).  Returns the
updated `_all_flags` and the literal declared flags in construction order. -/
def processLiterals (attrs : List (String × PyVal)) (allFlags : List PyFlag) :
    Except PyError (List PyFlag × List PyFlag) :=
  match attrs with
  | [] => Except.ok (allFlags, [])
  | (n, v) :: rest =>
    if isFlagDef n v && !(v == PyVal.autoMarker) then
      match metaCall allFlags n v with
      | Except.error e => Except.error e
      | Except.ok (all1, f) =>
        match processLiterals rest all1 with
        | Except.error e => Except.error e
        | Except.ok (all2, fs) => Except.ok (all2, f :: fs)
    else processLiterals rest allFlags

/-- The second loop of `FlaggedEnumMeta.__init__`: scans `attrs` in order and
constructs a flag for every attribute whose value is the `auto` marker, with
values drawn from the `AutoGen` generator (threading its reserved mask).
Returns the updated `_all_flags`, the auto flags in construction order, and
the final reserved mask. -/
def processAutos (attrs : List (String × PyVal)) (allFlags : List PyFlag)
    (reserved : Int) : List PyFlag × List PyFlag × Int :=
  match attrs with
  | [] => (allFlags, [], reserved)
  | (n, v) :: rest =>
    if v == PyVal.autoMarker then
      let step := autoGenNext reserved
      let created := metaCallInt allFlags n step.1
      let recur := processAutos rest created.1 step.2
      (recur.1, created.2 :: recur.2.1, recur.2.2)
    else processAutos rest allFlags reserved

/-- The loop body of `FlaggedEnumMeta._assert_unique_flags`: folds a
`composition` mask over the declared flags; raises `RepeatedFlagValueError`
(naming the flag) as soon as a flag's value intersects the composition
(`if composition & flag.value:` — truthy means nonzero). -/
def assertUniqueAux (composition : Int) (flags : List PyFlag) :
    Except PyError Unit :=
  match flags with
  | [] => Except.ok ()
  | f :: rest =>
    if Int.land composition f.value ≠ 0 then
      Except.error (PyError.repeatedFlagValue f.name)
    else assertUniqueAux (Int.lor composition f.value) rest

/-- `FlaggedEnumMeta._assert_unique_flags`, started with `composition = 0`. -/
def assertUnique (flags : List PyFlag) : Except PyError Unit :=
  assertUniqueAux 0 flags

/-- `FlaggedEnumMeta.__init__`: builds the flag-set type state from the class
body `attrs`.  Literal flags are constructed first (set-comprehension pass),
then the `AutoGen` generator is seeded with the literal values, then auto
flags are constructed, then `_assert_unique_flags` runs on the declared
collection. -/
def mkFlagSet (typeName : String) (attrs : List (String × PyVal)) :
    Except PyError FlagSet :=
  match processLiterals attrs [] with
  | Except.error e => Except.error e
  | Except.ok (all1, literals) =>
    let reserved := autoGenInit (literals.map PyFlag.value)
    let autosResult := processAutos attrs all1 reserved
    let declared := literals ++ autosResult.2.1
    match assertUnique declared with
    | Except.error e => Except.error e
    | Except.ok _ =>
      Except.ok { typeName := typeName, declaredFlags := declared,
                  allFlags := autosResult.1 }

/-- `FlaggedEnumMeta.get_by_name`: `getattr(cls, name)` finds the declared
flag that `__init__` installed with `setattr`, else raises `IndexError`. -/
def get_by_name (fs : FlagSet) (name : String) : Except PyError PyFlag :=
  match fs.declaredFlags.find? (fun f => f.name == name) with
  | some f => Except.ok f
  | none => Except.error
      (PyError.indexError ("No declared flag with name " ++ name))

/-- `FlaggedEnumMeta.get_by_value`: searches `cls._declared_flags` (only) for
a flag whose value equals the query; raises `IndexError` when none does. -/
def get_by_value (fs : FlagSet) (value : Int) : Except PyError PyFlag :=
  match fs.declaredFlags.find? (fun f => f.value == value) with
  | some f => Except.ok f
  | none => Except.error
      (PyError.indexError ("No declared flag with value (" ++ toString value ++ ")"))

/-- `FlaggedEnumMeta.__getitem__`: dispatches on the key's runtime type;
a key that is neither a `str` nor an `int` falls off the `if`/`elif` chain,
so the method returns `None`. -/
def getItem (fs : FlagSet) (key : PyKey) : Except PyError (Option PyFlag) :=
  match key with
  | PyKey.strKey s => (get_by_name fs s).map some
  | PyKey.intKey v => (get_by_value fs v).map some
  | PyKey.otherKey => Except.ok none

/-- `FlaggedEnumMeta.__contains__` restricted to instances of the type:
membership of `item` in the Python set `cls._all_flags`, which (since
`__eq__` is identity) is membership by object identity. -/
def memAll (fs : FlagSet) (f : PyFlag) : Bool :=
  fs.allFlags.any (fun g => g.id == f.id)

/-- `FlaggedEnum.__eq__`: `self is other` — object identity. -/
def flagEq (a b : PyFlag) : Bool := a.id == b.id

/-- `FlaggedEnum.__and__` for operands of the same flag-set type: the integer
`self.value & other.value` (the `TypeError` branch for foreign operands is
outside this single-registry model). -/
def flagAnd (a b : PyFlag) : Int := Int.land a.value b.value

/-- `FlaggedEnum.__or__` for operands of the same flag-set type: computes the
compound value, scans `cls._all_flags` for an existing flag with that value
and returns it if found; otherwise creates (and registers in `_all_flags`) a
new flag named `self.name + "|" + other.name`.  Returns the updated registry
and the resulting flag. -/
def flagOr (fs : FlagSet) (a b : PyFlag) : FlagSet × PyFlag :=
  let compoundValue := Int.lor a.value b.value
  match fs.allFlags.find? (fun f => f.value == compoundValue) with
  | some f => (fs, f)
  | none =>
    let created := metaCallInt fs.allFlags (a.name ++ "|" ++ b.name) compoundValue
    ({ fs with allFlags := created.1 }, created.2)

/-- The rendering `f'{cls.__name__}.{self.name}({self.value})'` used by
`FlaggedEnum.__str__` for flags contained in the type. -/
def reprParen (fs : FlagSet) (f : PyFlag) : String :=
  fs.typeName ++ "." ++ f.name ++ "(" ++ toString f.value ++ ")"

/-- `FlaggedEnum.__str__` with explicit recursion fuel: if `self in cls`
(membership of `_all_flags` by identity) render as `TypeName.name(value)`;
otherwise join `str(flag)` with " | " over the declared flags whose bits
intersect `self` (`if self & flag`).  The recursive `str(flag)` calls are on
declared flags; in every state `__init__` can build, declared flags are in
`_all_flags`, so recursion depth 2 suffices (fuel 0 is unreachable there). -/
def flagStrAux (fs : FlagSet) : Nat → PyFlag → String
  | 0, _ => ""
  | fuel + 1, f =>
    if memAll fs f then reprParen fs f
    else String.intercalate " | "
      ((fs.declaredFlags.filter (fun g => flagAnd f g != 0)).map
        (flagStrAux fs fuel))

/-- `FlaggedEnum.__str__`. -/
def flagStr (fs : FlagSet) (f : PyFlag) : String :=
  flagStrAux fs 2 f

/-! ### Concrete registries used as test inputs (mirroring `flag_test.py`) -/

/-- The class body of `MyEnum` from `flag_test.py`. -/
def myEnumAttrs : List (String × PyVal) :=
  [("read_only", PyVal.intVal 1), ("lowercase", PyVal.intVal 2),
   ("immediate", PyVal.intVal 4)]

/-- The registry state `FlaggedEnumMeta.__init__` builds for `MyEnum`. -/
def fsME : FlagSet :=
  { typeName := "MyEnum",
    declaredFlags := [⟨0, "read_only", 1⟩, ⟨1, "lowercase", 2⟩, ⟨2, "immediate", 4⟩],
    allFlags := [⟨0, "read_only", 1⟩, ⟨1, "lowercase", 2⟩, ⟨2, "immediate", 4⟩] }

/-- A two-flag class body: `read_only = 1; lowercase = 2`. -/
def twoAttrs : List (String × PyVal) :=
  [("read_only", PyVal.intVal 1), ("lowercase", PyVal.intVal 2)]

/-- The registry built from `twoAttrs`. -/
def fsTwo : FlagSet :=
  { typeName := "MyEnum",
    declaredFlags := [⟨0, "read_only", 1⟩, ⟨1, "lowercase", 2⟩],
    allFlags := [⟨0, "read_only", 1⟩, ⟨1, "lowercase", 2⟩] }

/-- The interned combination `read_only | lowercase` created by `__or__`
against `fsTwo`. -/
def comboFlag : PyFlag := ⟨2, "read_only|lowercase", 3⟩

/-- The registry after `read_only | lowercase` was interned: `_all_flags`
grew, `_declared_flags` did not. -/
def fsTwoOr : FlagSet :=
  { typeName := "MyEnum",
    declaredFlags := [⟨0, "read_only", 1⟩, ⟨1, "lowercase", 2⟩],
    allFlags := [⟨0, "read_only", 1⟩, ⟨1, "lowercase", 2⟩, comboFlag] }

/-- The class body of `MyAutoEnum` from `flag_test.py`:
`read_only = auto; lowercase = 1; immediate = auto`. -/
def autoAttrs : List (String × PyVal) :=
  [("read_only", PyVal.autoMarker), ("lowercase", PyVal.intVal 1),
   ("immediate", PyVal.autoMarker)]

/-- The registry built for `MyAutoEnum`: the literal `lowercase = 1` is
constructed by the set-comprehension pass before the two auto flags. -/
def fsAuto : FlagSet :=
  { typeName := "MyAutoEnum",
    declaredFlags := [⟨0, "lowercase", 1⟩, ⟨1, "read_only", 2⟩, ⟨2, "immediate", 4⟩],
    allFlags := [⟨0, "lowercase", 1⟩, ⟨1, "read_only", 2⟩, ⟨2, "immediate", 4⟩] }

/-- A class body declaring two flags with the same explicit value `0`. -/
def zeroAttrs : List (String × PyVal) :=
  [("a", PyVal.intVal 0), ("b", PyVal.intVal 0)]

/-- The registry built from `zeroAttrs` (construction succeeds: `0 & 0 = 0`
is falsy, so `_assert_unique_flags` raises nothing). -/
def fsZero : FlagSet :=
  { typeName := "ZeroEnum",
    declaredFlags := [⟨0, "a", 0⟩, ⟨1, "b", 0⟩],
    allFlags := [⟨0, "a", 0⟩, ⟨1, "b", 0⟩] }

/-- The registry built from the single declaration `read_only = -1`
(`-1` passes `isinstance(value, int)`). -/
def fsNeg : FlagSet :=
  { typeName := "NegEnum",
    declaredFlags := [⟨0, "read_only", -1⟩],
    allFlags := [⟨0, "read_only", -1⟩] }

/-! ### Helper lemmas about two's-complement bit operations on `Int` -/

theorem int_testBit_zero (k : Nat) : Int.testBit 0 k = false :=
  Nat.zero_testBit k

theorem int_eq_zero_of_testBit (x : Int)
    (h : ∀ k, Int.testBit x k = false) : x = 0 := by
  cases x with
  | ofNat n =>
    have hn : n = 0 := Nat.eq_of_testBit_eq (fun i => by
      have hi := h i
      simpa [Int.testBit] using hi)
    simp [hn]
  | negSucc n =>
    exfalso
    have hlt : n < 2 ^ (n + 1) :=
      Nat.lt_of_lt_of_le (Nat.lt_two_pow n)
        (Nat.pow_le_pow_right (by omega) (Nat.le_succ n))
    have hfalse : Nat.testBit n (n + 1) = false := Nat.testBit_lt_two_pow hlt
    have htrue := h (n + 1)
    simp [Int.testBit, hfalse] at htrue

theorem int_testBit_ext (x y : Int)
    (h : ∀ k, Int.testBit x k = Int.testBit y k) : x = y := by
  cases x with
  | ofNat m =>
    cases y with
    | ofNat n =>
      have : m = n := Nat.eq_of_testBit_eq (fun i => by
        have hi := h i; simpa [Int.testBit] using hi)
      simp [this]
    | negSucc n =>
      exfalso
      have hm : Nat.testBit m (m + n + 1) = false :=
        Nat.testBit_lt_two_pow
          (Nat.lt_of_le_of_lt (by omega) (Nat.lt_two_pow (m + n + 1)))
      have hn : Nat.testBit n (m + n + 1) = false :=
        Nat.testBit_lt_two_pow
          (Nat.lt_of_le_of_lt (by omega) (Nat.lt_two_pow (m + n + 1)))
      have hk := h (m + n + 1)
      simp [Int.testBit, hm, hn] at hk
  | negSucc m =>
    cases y with
    | ofNat n =>
      exfalso
      have hm : Nat.testBit m (m + n + 1) = false :=
        Nat.testBit_lt_two_pow
          (Nat.lt_of_le_of_lt (by omega) (Nat.lt_two_pow (m + n + 1)))
      have hn : Nat.testBit n (m + n + 1) = false :=
        Nat.testBit_lt_two_pow
          (Nat.lt_of_le_of_lt (by omega) (Nat.lt_two_pow (m + n + 1)))
      have hk := h (m + n + 1)
      simp [Int.testBit, hm, hn] at hk
    | negSucc n =>
      have : m = n := Nat.eq_of_testBit_eq (fun i => by
        have hi := h i
        simp only [Int.testBit] at hi
        exact Bool.not_inj hi)
      simp [this]

theorem int_land_eq_zero_iff (a b : Int) :
    Int.land a b = 0 ↔
      ∀ k, Int.testBit a k = false ∨ Int.testBit b k = false := by
  constructor
  · intro h k
    have hk := congrArg (fun t => Int.testBit t k) h
    simp only [Int.testBit_land, int_testBit_zero] at hk
    cases ha : Int.testBit a k with
    | false => exact Or.inl rfl
    | true => right; simpa [ha] using hk
  · intro h
    refine int_eq_zero_of_testBit _ (fun k => ?_)
    rw [Int.testBit_land]
    rcases h k with hk | hk <;> simp [hk]

theorem int_land_comm (a b : Int) : Int.land a b = Int.land b a :=
  int_testBit_ext _ _ (fun k => by
    simp [Int.testBit_land, Bool.and_comm])

theorem int_lor_comm (a b : Int) : Int.lor a b = Int.lor b a :=
  int_testBit_ext _ _ (fun k => by
    simp [Int.testBit_lor, Bool.or_comm])

theorem int_zero_land (x : Int) : Int.land 0 x = 0 :=
  int_eq_zero_of_testBit _ (fun k => by
    simp [Int.testBit_land, int_testBit_zero])

theorem int_land_self (x : Int) : Int.land x x = x :=
  int_testBit_ext _ _ (fun k => by simp [Int.testBit_land])

theorem int_zero_lor (x : Int) : Int.lor 0 x = x :=
  int_testBit_ext _ _ (fun k => by
    simp [Int.testBit_lor, int_testBit_zero])

theorem int_land_lor_zero_left (a b c : Int)
    (h : Int.land a (Int.lor b c) = 0) : Int.land a b = 0 := by
  rw [int_land_eq_zero_iff] at h ⊢
  intro k
  rcases h k with hk | hk
  · exact Or.inl hk
  · right
    rw [Int.testBit_lor] at hk
    exact (Bool.or_eq_false_iff.mp hk).1

theorem int_land_lor_zero_right (a b c : Int)
    (h : Int.land a (Int.lor b c) = 0) : Int.land a c = 0 := by
  rw [int_lor_comm] at h
  exact int_land_lor_zero_left a c b h

/-! ### The number of trailing one bits, and the `AutoGen` formula -/

/-- The index of the lowest zero bit of `n` (= the number of trailing ones in
the binary representation of `n`). -/
def luz (n : Nat) : Nat :=
  if n % 2 = 0 then 0 else luz (n / 2) + 1
termination_by n
decreasing_by exact Nat.div_lt_self (by omega) (by omega)

theorem luz_even {n : Nat} (h : n % 2 = 0) : luz n = 0 := by
  rw [luz]; simp [h]

theorem luz_odd {n : Nat} (h : n % 2 = 1) : luz n = luz (n / 2) + 1 := by
  rw [luz]; simp [h]

theorem testBit_luz (n : Nat) : Nat.testBit n (luz n) = false := by
  induction n using Nat.strong_induction_on with
  | _ n ih =>
    rcases Nat.mod_two_eq_zero_or_one n with h | h
    · rw [luz_even h, Nat.testBit_zero]
      simp [h]
    · rw [luz_odd h, Nat.testBit_succ]
      exact ih (n / 2) (Nat.div_lt_self (by omega) (by omega))

theorem testBit_lt_luz (n : Nat) : ∀ j, j < luz n → Nat.testBit n j = true := by
  induction n using Nat.strong_induction_on with
  | _ n ih =>
    intro j hj
    rcases Nat.mod_two_eq_zero_or_one n with h | h
    · rw [luz_even h] at hj; omega
    · rw [luz_odd h] at hj
      cases j with
      | zero => rw [Nat.testBit_zero]; simp [h]
      | succ i =>
        rw [Nat.testBit_succ]
        exact ih (n / 2) (Nat.div_lt_self (by omega) (by omega)) i (by omega)

theorem luz_gt_of_testBit {m k : Nat}
    (h : ∀ j, j ≤ k → Nat.testBit m j = true) : k < luz m := by
  by_contra hc
  have hle : luz m ≤ k := by omega
  have := h (luz m) hle
  rw [testBit_luz m] at this
  exact Bool.false_ne_true this

theorem lor_succ_self (n : Nat) : n ||| (n + 1) = n + 2 ^ luz n := by
  induction n using Nat.strong_induction_on with
  | _ n ih =>
    rcases Nat.mod_two_eq_zero_or_one n with h | h
    · rw [luz_even h, pow_zero]
      have h1 : n = Nat.bit false (n / 2) := by
        rw [Nat.bit_val]; simp; omega
      have h2 : n + 1 = Nat.bit true (n / 2) := by
        rw [Nat.bit_val]; simp; omega
      calc n ||| (n + 1) = Nat.bit false (n / 2) ||| Nat.bit true (n / 2) := by
              rw [← h1, ← h2]
        _ = Nat.bit true ((n / 2) ||| (n / 2)) := Nat.lor_bit false (n / 2) true (n / 2)
        _ = Nat.bit true (n / 2) := by rw [Nat.or_self]
        _ = n + 1 := h2.symm
    · rw [luz_odd h]
      have h1 : n = Nat.bit true (n / 2) := by
        rw [Nat.bit_val]; simp; omega
      have h2 : n + 1 = Nat.bit false (n / 2 + 1) := by
        rw [Nat.bit_val]; simp; omega
      have hrec : (n / 2) ||| (n / 2 + 1) = n / 2 + 2 ^ luz (n / 2) :=
        ih (n / 2) (Nat.div_lt_self (by omega) (by omega))
      have hpow : 2 ^ (luz (n / 2) + 1) = 2 * 2 ^ luz (n / 2) := by
        rw [Nat.pow_succ]; ring
      calc n ||| (n + 1)
          = Nat.bit true (n / 2) ||| Nat.bit false (n / 2 + 1) := by rw [← h1, ← h2]
        _ = Nat.bit true ((n / 2) ||| (n / 2 + 1)) := Nat.lor_bit true (n / 2) false (n / 2 + 1)
        _ = 2 * ((n / 2) ||| (n / 2 + 1)) + 1 := by rw [Nat.bit_val]; simp
        _ = 2 * (n / 2 + 2 ^ luz (n / 2)) + 1 := by rw [hrec]
        _ = n + 2 ^ (luz (n / 2) + 1) := by rw [hpow]; omega

/-- Casting: `Int.lor` on an `Int.ofNat` and a power of two. -/
theorem int_lor_ofNat_pow (n k : Nat) :
    Int.lor (Int.ofNat n) ((2 : Int) ^ k) = Int.ofNat (n ||| 2 ^ k) := by
  have hcast : (2 : Int) ^ k = Int.ofNat (2 ^ k) := by
    rw [Int.ofNat_eq_natCast]; push_cast; ring
  rw [hcast]; rfl

/-- The `AutoGen.__next__` formula, evaluated on a non-negative reserved mask
`n`: it returns the power of two at the lowest zero bit of `n` and the mask
with that bit set. -/
theorem autoGenNext_ofNat (n : Nat) :
    autoGenNext (Int.ofNat n) =
      ((2 : Int) ^ luz n, Int.ofNat (n ||| 2 ^ luz n)) := by
  have hlnot : Int.lnot (Int.ofNat n) = Int.negSucc n := rfl
  have hsub : Int.negSucc n - 1 = Int.negSucc (n + 1) := by
    rw [Int.negSucc_eq, Int.negSucc_eq]; push_cast; ring
  have hland : Int.land (Int.negSucc n) (Int.negSucc (n + 1)) =
      Int.negSucc (n ||| (n + 1)) := rfl
  have hval : Int.lnot (Int.ofNat n) -
      Int.land (Int.lnot (Int.ofNat n)) (Int.lnot (Int.ofNat n) - 1) =
      (2 : Int) ^ luz n := by
    rw [hlnot, hsub, hland, lor_succ_self n, Int.negSucc_eq, Int.negSucc_eq]
    push_cast; ring
  have hlor := int_lor_ofNat_pow n (luz n)
  show (Int.lnot (Int.ofNat n) -
      Int.land (Int.lnot (Int.ofNat n)) (Int.lnot (Int.ofNat n) - 1),
      Int.lor (Int.ofNat n) (Int.lnot (Int.ofNat n) -
        Int.land (Int.lnot (Int.ofNat n)) (Int.lnot (Int.ofNat n) - 1))) = _
  rw [hval, hlor]

/-- C2: one call of `AutoGen.__next__` on a non-negative reserved mask `r`
returns the smallest power of two whose bit is not set in `r` (its bit `k` is
clear in `r` and every lower bit is set), updates the reserved mask to
`r | 2^k` (whose bit `k` is now set and which is again non-negative), and the
next call on the updated mask returns a strictly larger value, so repeated
calls never collide and are strictly increasing. -/
theorem autoGen_next_spec (r : Int) (h : 0 ≤ r) :
    ∃ k : Nat,
      (autoGenNext r).1 = (2 : Int) ^ k ∧
      Int.testBit r k = false ∧
      (∀ j, j < k → Int.testBit r j = true) ∧
      (autoGenNext r).2 = Int.lor r ((autoGenNext r).1) ∧
      Int.testBit (autoGenNext r).2 k = true ∧
      0 ≤ (autoGenNext r).2 ∧
      (autoGenNext r).1 < (autoGenNext ((autoGenNext r).2)).1 := by
  obtain ⟨n, hn⟩ := Int.eq_ofNat_of_zero_le h
  subst hn
  rw [← Int.ofNat_eq_natCast, autoGenNext_ofNat]
  refine ⟨luz n, rfl, testBit_luz n, ?_, ?_, ?_, ?_, ?_⟩
  · exact fun j hj => testBit_lt_luz n j hj
  · exact (int_lor_ofNat_pow n (luz n)).symm
  · show Nat.testBit (n ||| 2 ^ luz n) (luz n) = true
    rw [Nat.testBit_lor, Nat.testBit_two_pow]
    simp
  · exact Int.ofNat_nonneg _
  · rw [autoGenNext_ofNat]
    show (2 : Int) ^ luz n < (2 : Int) ^ luz (n ||| 2 ^ luz n)
    have hgt : luz n < luz (n ||| 2 ^ luz n) := by
      apply luz_gt_of_testBit
      intro j hj
      rw [Nat.testBit_lor]
      rcases Nat.lt_or_ge j (luz n) with hlt | hge
      · rw [testBit_lt_luz n j hlt]; simp
      · have : j = luz n := by omega
        subst this
        rw [Nat.testBit_two_pow]
        simp
    exact pow_lt_pow_right₀ (by norm_num) hgt

/-- Witness for `autoGen_next_spec` at the concrete reserved mask `r = 5`. -/
theorem autoGen_next_spec_witness :
    (0 : Int) ≤ 5 ∧
    ∃ k : Nat,
      (autoGenNext 5).1 = (2 : Int) ^ k ∧
      Int.testBit 5 k = false ∧
      (∀ j, j < k → Int.testBit 5 j = true) ∧
      (autoGenNext 5).2 = Int.lor 5 ((autoGenNext 5).1) ∧
      Int.testBit (autoGenNext 5).2 k = true ∧
      0 ≤ (autoGenNext 5).2 ∧
      (autoGenNext 5).1 < (autoGenNext ((autoGenNext 5).2)).1 :=
  ⟨by decide, autoGen_next_spec 5 (by decide)⟩

/-- C10: `__getitem__` with a key that is neither a `str` nor an `int` falls
through both `isinstance` branches and returns `None` without raising. -/
theorem getitem_other_returns_none (fs : FlagSet) :
    getItem fs PyKey.otherKey = Except.ok none := rfl

/-- C1: `a | b` yields a flag whose value is `a.value | b.value`; if a flag
with that value is already in `_all_flags` it is returned and the registry is
unchanged, otherwise a fresh flag named `a.name + "|" + b.name` is appended
to `_all_flags` (never to `_declared_flags`) and returned; and against the
resulting registry, `b | a` and a repeated `a | b` both return that
identical object and leave the registry unchanged. -/
theorem or_intern_spec (fs : FlagSet) (a b : PyFlag) :
    ((flagOr fs a b).2.value = Int.lor a.value b.value) ∧
    (∀ f, fs.allFlags.find? (fun g => g.value == Int.lor a.value b.value) = some f →
        flagOr fs a b = (fs, f)) ∧
    (fs.allFlags.find? (fun g => g.value == Int.lor a.value b.value) = none →
        (flagOr fs a b).2.name = a.name ++ "|" ++ b.name ∧
        (flagOr fs a b).1.allFlags = fs.allFlags ++ [(flagOr fs a b).2] ∧
        (flagOr fs a b).1.declaredFlags = fs.declaredFlags ∧
        (flagOr fs a b).1.typeName = fs.typeName) ∧
    (flagOr (flagOr fs a b).1 b a = ((flagOr fs a b).1, (flagOr fs a b).2)) ∧
    (flagOr (flagOr fs a b).1 a b = ((flagOr fs a b).1, (flagOr fs a b).2)) := by
  have hcomm : Int.lor b.value a.value = Int.lor a.value b.value :=
    int_lor_comm b.value a.value
  cases hfind : fs.allFlags.find? (fun g => g.value == Int.lor a.value b.value) with
  | some f =>
    have hval : f.value = Int.lor a.value b.value := by
      have hp := List.find?_some hfind
      simpa using hp
    have hor : flagOr fs a b = (fs, f) := by
      simp [flagOr, hfind]
    refine ⟨by rw [hor]; exact hval, ?_, ?_, ?_, ?_⟩
    · intro f2 hf2
      cases hf2
      exact hor
    · intro hnone
      exact Option.noConfusion hnone
    · rw [hor]
      simp only [flagOr, hcomm, hfind]
    · rw [hor]
      simp only [flagOr, hfind]
  | none =>
    have hor : flagOr fs a b =
        ({ fs with allFlags := fs.allFlags ++
            [⟨fs.allFlags.length, a.name ++ "|" ++ b.name, Int.lor a.value b.value⟩] },
          ⟨fs.allFlags.length, a.name ++ "|" ++ b.name, Int.lor a.value b.value⟩) := by
      simp [flagOr, hfind, metaCallInt]
    have hnewfind : ∀ l : List PyFlag,
        l.find? (fun g => g.value == Int.lor a.value b.value) = none →
        (l ++ [(⟨l.length, a.name ++ "|" ++ b.name, Int.lor a.value b.value⟩ : PyFlag)]).find?
            (fun g => g.value == Int.lor a.value b.value) =
          some ⟨l.length, a.name ++ "|" ++ b.name, Int.lor a.value b.value⟩ := by
      intro l hl
      rw [List.find?_append, hl]
      simp [List.find?]
    refine ⟨by rw [hor], ?_, ?_, ?_, ?_⟩
    · intro f2 hf2
      exact Option.noConfusion hf2
    · intro _
      rw [hor]
      exact ⟨rfl, rfl, rfl, rfl⟩
    · rw [hor]
      simp only [flagOr, hcomm]
      rw [hnewfind fs.allFlags hfind]
    · rw [hor]
      simp only [flagOr]
      rw [hnewfind fs.allFlags hfind]

/-- Witness for `or_intern_spec`: against `fsTwoOr` (where the union is
already interned) the interned `comboFlag` is returned unchanged, and
against `fsTwo` (a miss) the fresh flag is named `"read_only|lowercase"`. -/
theorem or_intern_spec_witness :
    flagOr fsTwoOr ⟨0, "read_only", 1⟩ ⟨1, "lowercase", 2⟩ = (fsTwoOr, comboFlag) ∧
    (flagOr fsTwo ⟨0, "read_only", 1⟩ ⟨1, "lowercase", 2⟩).2.name =
      "read_only" ++ "|" ++ "lowercase" := by
  constructor
  · exact (or_intern_spec fsTwoOr ⟨0, "read_only", 1⟩ ⟨1, "lowercase", 2⟩).2.1
      comboFlag (by decide)
  · exact ((or_intern_spec fsTwo ⟨0, "read_only", 1⟩ ⟨1, "lowercase", 2⟩).2.2.1
      (by decide)).1

/-- `_assert_unique_flags` succeeding from composition `comp` means every
flag is bit-disjoint from `comp` and the flags are pairwise bit-disjoint. -/
theorem assertUniqueAux_ok (flags : List PyFlag) : ∀ comp : Int,
    assertUniqueAux comp flags = Except.ok () →
    (∀ f ∈ flags, Int.land f.value comp = 0) ∧
    List.Pairwise (fun a b => Int.land a.value b.value = 0) flags := by
  induction flags with
  | nil =>
    intro comp _
    exact ⟨by simp, List.Pairwise.nil⟩
  | cons f rest ih =>
    intro comp h
    by_cases hcl : Int.land comp f.value = 0
    · rw [assertUniqueAux] at h
      rw [if_neg (by simp [hcl])] at h
      obtain ⟨hall, hpw⟩ := ih (Int.lor comp f.value) h
      refine ⟨?_, ?_⟩
      · intro g hg
        rcases List.mem_cons.mp hg with hg | hg
        · subst hg
          rw [int_land_comm]
          exact hcl
        · exact int_land_lor_zero_left _ _ _ (hall g hg)
      · refine List.Pairwise.cons ?_ hpw
        intro g hg
        rw [int_land_comm]
        exact int_land_lor_zero_right _ _ _ (hall g hg)
    · rw [assertUniqueAux] at h
      rw [if_pos hcl] at h
      cases h

/-- C3: when a flag-set type is constructed without error, any two distinct
declared flags (explicit or auto-assigned) have bit-disjoint values:
`a.value & b.value == 0`. -/
theorem declared_flags_disjoint (typeName : String)
    (attrs : List (String × PyVal)) (fs : FlagSet)
    (h : mkFlagSet typeName attrs = Except.ok fs)
    (i j : Fin fs.declaredFlags.length) (hij : i ≠ j) :
    Int.land (fs.declaredFlags.get i).value (fs.declaredFlags.get j).value = 0 := by
  have hpw : List.Pairwise (fun a b => Int.land a.value b.value = 0)
      fs.declaredFlags := by
    rw [mkFlagSet] at h
    cases hpl : processLiterals attrs [] with
    | error e => rw [hpl] at h; cases h
    | ok res =>
      rw [hpl] at h
      obtain ⟨all1, literals⟩ := res
      simp only at h
      cases hau : assertUnique (literals ++
          (processAutos attrs all1 (autoGenInit (literals.map PyFlag.value))).2.1) with
      | error e => rw [hau] at h; cases h
      | ok u =>
        rw [hau] at h
        cases h
        exact (assertUniqueAux_ok _ 0 hau).2
  have hmono := List.pairwise_iff_get.mp hpw
  rcases Fin.lt_or_lt_of_ne hij with hlt | hlt
  · exact hmono i j hlt
  · rw [int_land_comm]
    exact hmono j i hlt

/-- Witness for `declared_flags_disjoint` on the concrete type `MyEnum`. -/
theorem declared_flags_disjoint_witness :
    mkFlagSet "MyEnum" myEnumAttrs = Except.ok fsME ∧
    Int.land ((fsME.declaredFlags.get ⟨0, by decide⟩).value)
      ((fsME.declaredFlags.get ⟨1, by decide⟩).value) = 0 :=
  ⟨by rfl,
    declared_flags_disjoint "MyEnum" myEnumAttrs fsME (by rfl)
      ⟨0, by decide⟩ ⟨1, by decide⟩ (by decide)⟩

/-- C4 (amended): `get_by_value` searches only `_declared_flags`: a
successful lookup returns a declared flag whose value equals the query, and
when no *declared* flag has the value it raises `IndexError` (a
`LookupError`) — even if an interned OR-combination in `_all_flags` has
exactly that value. -/
theorem get_by_value_spec (fs : FlagSet) (v : Int) :
    (∀ f, get_by_value fs v = Except.ok f →
      f ∈ fs.declaredFlags ∧ f.value = v) ∧
    ((∀ f ∈ fs.declaredFlags, f.value ≠ v) →
      get_by_value fs v = Except.error
        (PyError.indexError ("No declared flag with value (" ++ toString v ++ ")"))) := by
  constructor
  · intro f hf
    unfold get_by_value at hf
    cases hfind : fs.declaredFlags.find? (fun g => g.value == v) with
    | none => rw [hfind] at hf; cases hf
    | some g =>
      rw [hfind] at hf
      cases hf
      refine ⟨List.mem_of_find?_eq_some hfind, ?_⟩
      have := List.find?_some hfind
      simpa using this
  · intro hall
    unfold get_by_value
    have hnone : fs.declaredFlags.find? (fun g => g.value == v) = none := by
      rw [List.find?_eq_none]
      intro g hg
      simp [hall g hg]
    rw [hnone]

/-- Witness for `get_by_value_spec`: on `MyEnum`, value `1` finds the
declared `read_only` and value `322` raises `IndexError`. -/
theorem get_by_value_spec_witness :
    ((⟨0, "read_only", 1⟩ : PyFlag) ∈ fsME.declaredFlags ∧
      (⟨0, "read_only", 1⟩ : PyFlag).value = 1) ∧
    get_by_value fsME 322 = Except.error
      (PyError.indexError ("No declared flag with value (" ++ toString (322 : Int) ++ ")")) :=
  ⟨(get_by_value_spec fsME 1).1 ⟨0, "read_only", 1⟩ (by rfl),
   (get_by_value_spec fsME 322).2 (by decide)⟩

/-- C4 counterexample: after `read_only | lowercase` is interned (so
`_all_flags` holds a flag of value `3`), `get_by_value(3)` still raises
`IndexError` — it does not search the `all` collection, refuting the claim
that the lookup also covers previously-interned OR-combinations. -/
theorem get_by_value_misses_interned :
    flagOr fsTwo ⟨0, "read_only", 1⟩ ⟨1, "lowercase", 2⟩ = (fsTwoOr, comboFlag) ∧
    memAll fsTwoOr comboFlag = true ∧
    comboFlag.value = 3 ∧
    get_by_value fsTwoOr 3 =
      Except.error (PyError.indexError "No declared flag with value (3)") :=
  ⟨by rfl, by decide, by decide, by rfl⟩

/-- C5 counterexample: the type `ZeroEnum` declares `a = 0; b = 0` (which
constructs successfully); its two flags have equal values but are distinct
objects, and `__eq__` (which is `self is other`) reports them unequal —
refuting "equal iff values are equal". -/
theorem eq_not_by_value :
    mkFlagSet "ZeroEnum" zeroAttrs = Except.ok fsZero ∧
    (⟨0, "a", 0⟩ : PyFlag) ∈ fsZero.declaredFlags ∧
    (⟨1, "b", 0⟩ : PyFlag) ∈ fsZero.declaredFlags ∧
    (⟨0, "a", 0⟩ : PyFlag).value = (⟨1, "b", 0⟩ : PyFlag).value ∧
    flagEq ⟨0, "a", 0⟩ ⟨1, "b", 0⟩ = false :=
  ⟨by rfl, by decide, by decide, by decide, by decide⟩

/-- C5 (amended): `__eq__` compares object identity (`self is other`), not
values; equality of two flags holds exactly when they are the same object.
Because unions are interned, repeating the same OR against the same registry
returns the identical object, so those results do compare equal. -/
theorem eq_is_identity (fs : FlagSet) (a b : PyFlag) :
    (flagEq a b = true ↔ a.id = b.id) ∧
    flagEq a a = true ∧
    flagEq (flagOr fs a b).2 (flagOr (flagOr fs a b).1 a b).2 = true := by
  refine ⟨by simp [flagEq], by simp [flagEq], ?_⟩
  cases hfind : fs.allFlags.find? (fun g => g.value == Int.lor a.value b.value) with
  | some f =>
    have hor : flagOr fs a b = (fs, f) := by simp [flagOr, hfind]
    rw [hor]
    simp only [flagOr, hfind]
    simp [flagEq]
  | none =>
    have hor : flagOr fs a b =
        ({ fs with allFlags := fs.allFlags ++
            [⟨fs.allFlags.length, a.name ++ "|" ++ b.name, Int.lor a.value b.value⟩] },
          ⟨fs.allFlags.length, a.name ++ "|" ++ b.name, Int.lor a.value b.value⟩) := by
      simp [flagOr, hfind, metaCallInt]
    rw [hor]
    simp only [flagOr]
    rw [List.find?_append, hfind]
    simp [flagEq, metaCallInt]

/-- Witness for `eq_is_identity`: the interned `read_only|lowercase` object
compares equal to the result of repeating the union. -/
theorem eq_is_identity_witness :
    flagEq (flagOr fsTwo ⟨0, "read_only", 1⟩ ⟨1, "lowercase", 2⟩).2
      (flagOr (flagOr fsTwo ⟨0, "read_only", 1⟩ ⟨1, "lowercase", 2⟩).1
        ⟨0, "read_only", 1⟩ ⟨1, "lowercase", 2⟩).2 = true :=
  (eq_is_identity fsTwo ⟨0, "read_only", 1⟩ ⟨1, "lowercase", 2⟩).2.2

/-- C6 counterexample: two flags both declared with the explicit literal `0`
do NOT raise `RepeatedFlagValueError`: `composition & 0` is falsy at both
steps of `_assert_unique_flags`, so the type constructs successfully —
refuting the claim for `v = 0`. -/
theorem dup_zero_value_accepted :
    mkFlagSet "ZeroEnum" zeroAttrs = Except.ok fsZero ∧
    fsZero.declaredFlags.map PyFlag.value = [0, 0] :=
  ⟨by rfl, by decide⟩

/-- C6 (amended): for every NONZERO integer `v`, declaring two flags with the
identical explicit literal value `v` raises `RepeatedFlagValueError` naming
the second flag, and the type's construction fails.  (For `v = 0` the check
`composition & flag.value` is falsy and no error is raised.) -/
theorem dup_nonzero_value_raises (v : Int) (hv : v ≠ 0) :
    mkFlagSet "MyClashingFlagsEnum"
      [("read_only", PyVal.intVal v), ("lowercase", PyVal.intVal v)] =
      Except.error (PyError.repeatedFlagValue "lowercase") := by
  have hpl : processLiterals
      [("read_only", PyVal.intVal v), ("lowercase", PyVal.intVal v)] [] =
      Except.ok ([⟨0, "read_only", v⟩, ⟨1, "lowercase", v⟩],
        [⟨0, "read_only", v⟩, ⟨1, "lowercase", v⟩]) := rfl
  have ha : assertUniqueAux 0
      [(⟨0, "read_only", v⟩ : PyFlag), ⟨1, "lowercase", v⟩] =
      Except.error (PyError.repeatedFlagValue "lowercase") := by
    rw [assertUniqueAux, if_neg (by simp [int_zero_land])]
    rw [int_zero_lor]
    rw [assertUniqueAux, if_pos (by simpa [int_land_self] using hv)]
  simp [mkFlagSet, hpl, processAutos, autoGenInit, assertUnique, ha]

/-- Witness for `dup_nonzero_value_raises` at `v = 1` (the
`MyClashingFlagsEnum` scenario of `flag_test.py`). -/
theorem dup_nonzero_value_raises_witness :
    mkFlagSet "MyClashingFlagsEnum"
      [("read_only", PyVal.intVal 1), ("lowercase", PyVal.intVal 1)] =
      Except.error (PyError.repeatedFlagValue "lowercase") :=
  dup_nonzero_value_raises 1 (by decide)

/-- Declaring a single flag with any `int` literal (negative included)
constructs the one-flag registry. -/
theorem mkFlagSet_single_int (tn n : String) (v : Int)
    (hn : pyUnderscoreFirst n = false) :
    mkFlagSet tn [(n, PyVal.intVal v)] =
      Except.ok { typeName := tn, declaredFlags := [⟨0, n, v⟩],
                  allFlags := [⟨0, n, v⟩] } := by
  have hpl : processLiterals [(n, PyVal.intVal v)] [] =
      Except.ok ([⟨0, n, v⟩], [⟨0, n, v⟩]) := by
    simp [processLiterals, isFlagDef, hn, metaCall, metaCallInt]
  have ha : assertUniqueAux 0 [(⟨0, n, v⟩ : PyFlag)] = Except.ok () := by
    rw [assertUniqueAux, if_neg (by simp [int_zero_land])]
    rfl
  simp [mkFlagSet, hpl, processAutos, autoGenInit, assertUnique, ha]

/-- C7 counterexample: `-1` passes the `isinstance(value, int)` check, so the
single declaration `read_only = -1` constructs successfully and the resulting
flag carries the negative value `-1` — refuting both the claim that negative
literals raise `IllegalFlagValueError` and the claim that every constructed
flag has a non-negative value. -/
theorem negative_value_accepted :
    mkFlagSet "NegEnum" [("read_only", PyVal.intVal (-1))] = Except.ok fsNeg ∧
    fsNeg.declaredFlags.map PyFlag.value = [-1] ∧
    ((-1 : Int) < 0) :=
  ⟨mkFlagSet_single_int "NegEnum" "read_only" (-1) (by decide),
   by decide, by decide⟩

/-- C7 (amended): `__call__` raises `IllegalFlagValueError` exactly when the
declared literal is not an `int` (e.g. a string), fatally to the type's
construction; any integer literal — negative ones included — is accepted and
becomes the flag's value. -/
theorem illegal_value_iff_nonint (tn n s : String) (v : Int)
    (hn : pyUnderscoreFirst n = false) :
    mkFlagSet tn [(n, PyVal.strVal s)] =
      Except.error (PyError.illegalFlagValue (PyVal.strVal s)) ∧
    mkFlagSet tn [(n, PyVal.intVal v)] =
      Except.ok { typeName := tn, declaredFlags := [⟨0, n, v⟩],
                  allFlags := [⟨0, n, v⟩] } := by
  constructor
  · simp [mkFlagSet, processLiterals, isFlagDef, hn, metaCall]
  · exact mkFlagSet_single_int tn n v hn

/-- Witness for `illegal_value_iff_nonint`: the `MyIllegalFlagsEnum` scenario
(string value) errors, and an explicit negative literal is accepted. -/
theorem illegal_value_iff_nonint_witness :
    mkFlagSet "MyIllegalFlagsEnum" [("lowercase", PyVal.strVal "lowercase")] =
      Except.error (PyError.illegalFlagValue (PyVal.strVal "lowercase")) ∧
    mkFlagSet "MyIllegalFlagsEnum" [("lowercase", PyVal.intVal (-7))] =
      Except.ok { typeName := "MyIllegalFlagsEnum",
                  declaredFlags := [⟨0, "lowercase", -7⟩],
                  allFlags := [⟨0, "lowercase", -7⟩] } :=
  illegal_value_iff_nonint "MyIllegalFlagsEnum" "lowercase" "lowercase" (-7)
    (by decide)

/-- Inversion for `metaCall` succeeding: the created flag carries the given
name, the next fresh id, and the value of the `int` literal, and it is
appended to `_all_flags`. -/
theorem metaCall_ok (allFlags : List PyFlag) (n : String) (v : PyVal)
    (all1 : List PyFlag) (f : PyFlag)
    (h : metaCall allFlags n v = Except.ok (all1, f)) :
    f.name = n ∧ f.id = allFlags.length ∧ all1 = allFlags ++ [f] ∧
      PyVal.intVal f.value = v := by
  cases v with
  | intVal w =>
    rw [metaCall] at h
    rw [Except.ok.injEq] at h
    have h2 : (⟨allFlags.length, n, w⟩ : PyFlag) = f := congrArg Prod.snd h
    have h1 : allFlags ++ [(⟨allFlags.length, n, w⟩ : PyFlag)] = all1 :=
      congrArg Prod.fst h
    subst h2
    exact ⟨rfl, rfl, h1.symm, rfl⟩
  | strVal s => simp [metaCall] at h
  | autoMarker => simp [metaCall] at h
  | callable => simp [metaCall] at h

/-- The literal pass produces exactly the names of the non-`auto` flag
definitions, in class-body order. -/
theorem processLiterals_names (attrs : List (String × PyVal)) :
    ∀ allFlags all2 lits,
      processLiterals attrs allFlags = Except.ok (all2, lits) →
      lits.map PyFlag.name =
        (attrs.filter
          (fun p => isFlagDef p.1 p.2 && !(p.2 == PyVal.autoMarker))).map
          Prod.fst := by
  induction attrs with
  | nil =>
    intro allFlags all2 lits h
    rw [processLiterals] at h
    cases h
    rfl
  | cons p rest ih =>
    obtain ⟨n, v⟩ := p
    intro allFlags all2 lits h
    rw [processLiterals] at h
    by_cases hc : (isFlagDef n v && !(v == PyVal.autoMarker)) = true
    · rw [if_pos hc] at h
      cases hmc : metaCall allFlags n v with
      | error e => rw [hmc] at h; cases h
      | ok res =>
        obtain ⟨all1, f⟩ := res
        rw [hmc] at h
        simp only at h
        cases hrec : processLiterals rest all1 with
        | error e =>
          rw [hrec] at h
          simp only at h
          exact Except.noConfusion h
        | ok res2 =>
          obtain ⟨all3, lits2⟩ := res2
          rw [hrec] at h
          simp only at h
          rw [Except.ok.injEq] at h
          have hlits : f :: lits2 = lits := congrArg Prod.snd h
          have hname : f.name = n := (metaCall_ok allFlags n v all1 f hmc).1
          rw [← hlits, List.filter_cons, if_pos hc, List.map_cons,
            List.map_cons, hname]
          rw [ih all1 all3 lits2 hrec]
    · rw [if_neg hc] at h
      rw [List.filter_cons, if_neg hc]
      exact ih allFlags all2 lits h

/-- The auto pass produces exactly the names of the `auto`-marked attributes,
in class-body order. -/
theorem processAutos_names (attrs : List (String × PyVal)) :
    ∀ allFlags reserved,
      (processAutos attrs allFlags reserved).2.1.map PyFlag.name =
        (attrs.filter (fun p => p.2 == PyVal.autoMarker)).map Prod.fst := by
  induction attrs with
  | nil => intro _ _; rfl
  | cons p rest ih =>
    obtain ⟨n, v⟩ := p
    intro allFlags reserved
    rw [processAutos]
    by_cases hc : (v == PyVal.autoMarker) = true
    · rw [if_pos hc, List.filter_cons, if_pos hc]
      simp only [List.map_cons]
      rw [ih]
      rfl
    · rw [if_neg hc, List.filter_cons, if_neg hc]
      exact ih allFlags reserved

/-- `__or__` never touches `_declared_flags`. -/
theorem flagOr_declared (fs : FlagSet) (a b : PyFlag) :
    (flagOr fs a b).1.declaredFlags = fs.declaredFlags := by
  cases hfind : fs.allFlags.find? (fun g => g.value == Int.lor a.value b.value) with
  | some f => simp [flagOr, hfind]
  | none => simp [flagOr, hfind]

/-- C8 (amended): iterating a constructed type yields exactly the declared
flags — the non-`auto` flag definitions first (in class-body order), then the
`auto`-marked ones (in class-body order) — and OR-combinations created later
never enter the iterated collection.  (The real iteration order of the
underlying Python `frozenset` is implementation-defined; this model fixes
construction order, which already differs from declaration order.) -/
theorem iteration_yields_declared (tn : String) (attrs : List (String × PyVal))
    (fs : FlagSet) (h : mkFlagSet tn attrs = Except.ok fs) (a b : PyFlag) :
    fs.declaredFlags.map PyFlag.name =
      (attrs.filter
        (fun p => isFlagDef p.1 p.2 && !(p.2 == PyVal.autoMarker))).map Prod.fst ++
      (attrs.filter (fun p => p.2 == PyVal.autoMarker)).map Prod.fst ∧
    (flagOr fs a b).1.declaredFlags = fs.declaredFlags := by
  constructor
  · rw [mkFlagSet] at h
    cases hpl : processLiterals attrs [] with
    | error e => rw [hpl] at h; cases h
    | ok res =>
      rw [hpl] at h
      obtain ⟨all1, lits⟩ := res
      simp only at h
      cases hau : assertUnique (lits ++
          (processAutos attrs all1 (autoGenInit (lits.map PyFlag.value))).2.1) with
      | error e => rw [hau] at h; cases h
      | ok u =>
        rw [hau] at h
        cases h
        rw [List.map_append]
        rw [processLiterals_names attrs [] all1 lits hpl]
        rw [processAutos_names attrs all1 (autoGenInit (lits.map PyFlag.value))]
  · exact flagOr_declared fs a b

/-- Witness for `iteration_yields_declared` on the concrete `MyAutoEnum`. -/
theorem iteration_yields_declared_witness :
    fsAuto.declaredFlags.map PyFlag.name =
      (autoAttrs.filter
        (fun p => isFlagDef p.1 p.2 && !(p.2 == PyVal.autoMarker))).map Prod.fst ++
      (autoAttrs.filter (fun p => p.2 == PyVal.autoMarker)).map Prod.fst ∧
    (flagOr fsAuto ⟨0, "lowercase", 1⟩ ⟨1, "read_only", 2⟩).1.declaredFlags =
      fsAuto.declaredFlags :=
  iteration_yields_declared "MyAutoEnum" autoAttrs fsAuto (by rfl)
    ⟨0, "lowercase", 1⟩ ⟨1, "read_only", 2⟩

/-- C8 counterexample: for `MyAutoEnum` (`read_only = auto; lowercase = 1;
immediate = auto`) the iterated collection is `lowercase, read_only,
immediate` — the literal is constructed before the autos — which is NOT the
declaration order `read_only, lowercase, immediate`, refuting the
declaration-order part of the claim. -/
theorem iteration_not_declaration_order :
    mkFlagSet "MyAutoEnum" autoAttrs = Except.ok fsAuto ∧
    fsAuto.declaredFlags.map PyFlag.name =
      ["lowercase", "read_only", "immediate"] ∧
    (autoAttrs.filter (fun p => isFlagDef p.1 p.2)).map Prod.fst =
      ["read_only", "lowercase", "immediate"] ∧
    fsAuto.declaredFlags.map PyFlag.name ≠
      (autoAttrs.filter (fun p => isFlagDef p.1 p.2)).map Prod.fst :=
  ⟨by rfl, by decide, by decide, by decide⟩

/-- C9 (amended): the branch of `__str__` is decided by membership of the
type's `all` collection (`self in cls`), NOT by being declared: any flag in
`_all_flags` — declared or an interned OR-combination — renders as
`"<TypeName>.<name>(<value>)"`; only a flag outside `_all_flags` renders as
the `" | "`-joined display of the declared flags whose bits intersect it (in
the model's declared order; the underlying set order is
implementation-defined). -/
theorem str_spec (fs : FlagSet) (f : PyFlag) :
    (memAll fs f = true → flagStr fs f = reprParen fs f) ∧
    (memAll fs f = false → (∀ g ∈ fs.declaredFlags, memAll fs g = true) →
      flagStr fs f = String.intercalate " | "
        ((fs.declaredFlags.filter (fun g => flagAnd f g != 0)).map
          (reprParen fs))) := by
  constructor
  · intro hm
    rw [flagStr, flagStrAux, if_pos hm]
  · intro hm hd
    rw [flagStr, flagStrAux, if_neg (by simp [hm])]
    have hmap : ∀ g ∈ fs.declaredFlags.filter (fun g => flagAnd f g != 0),
        flagStrAux fs 1 g = reprParen fs g := by
      intro g hg
      have hgd : g ∈ fs.declaredFlags := (List.mem_filter.mp hg).1
      rw [flagStrAux, if_pos (hd g hgd)]
    rw [List.map_congr_left hmap]

/-- Witness for `str_spec`: the interned combination renders in the
parenthesised form, and a flag object foreign to the registry renders as the
joined display. -/
theorem str_spec_witness :
    flagStr fsTwoOr comboFlag = reprParen fsTwoOr comboFlag ∧
    flagStr fsME ⟨99, "ghost", 3⟩ = String.intercalate " | "
      ((fsME.declaredFlags.filter (fun g => flagAnd ⟨99, "ghost", 3⟩ g != 0)).map
        (reprParen fsME)) :=
  ⟨(str_spec fsTwoOr comboFlag).1 (by decide),
   (str_spec fsME ⟨99, "ghost", 3⟩).2 (by decide) (by decide)⟩

/-- C9 counterexample: the interned combination `read_only|lowercase` is not
a declared flag, yet `str` renders it as `"MyEnum.read_only|lowercase(3)"`
(it is in `_all_flags`, so `self in cls` is true) and NOT as the joined
display `"MyEnum.read_only(1) | MyEnum.lowercase(2)"` the claim predicts for
non-declared instances. -/
theorem str_combo_not_joined :
    flagOr fsTwo ⟨0, "read_only", 1⟩ ⟨1, "lowercase", 2⟩ = (fsTwoOr, comboFlag) ∧
    comboFlag ∉ fsTwoOr.declaredFlags ∧
    String.intercalate " | "
      ((fsTwoOr.declaredFlags.filter (fun g => flagAnd comboFlag g != 0)).map
        (reprParen fsTwoOr)) = "MyEnum.read_only(1) | MyEnum.lowercase(2)" ∧
    flagStr fsTwoOr comboFlag = "MyEnum.read_only|lowercase(3)" ∧
    flagStr fsTwoOr comboFlag ≠ "MyEnum.read_only(1) | MyEnum.lowercase(2)" :=
  ⟨by rfl, by decide, by decide, by decide, by decide⟩
